import Mathlib

/-!
Shallow embedding of the GreenMove EV fleet charging optimizer
(`models.py`, `optimizer.py`, `main.py`).

Modelling conventions:
* Python `int` fields (battery, capacity, occupied) become `ℤ`;
  geographic coordinates (`float` degrees) become `ℚ` for the parts of the
  code that only compare and round distances; the flat-earth fallback
  formula, which uses `math.sqrt`/`math.cos`, is modelled over `ℝ`.
* Network calls are modelled by oracle parameters: the outcome of each
  remote tier is an `Option` value (`some d` = success returning `d`,
  `none` = timeout / non-2xx / malformed response), and the
  `ORS_API_KEY` environment variable is a `Bool` flag.
* In-place mutation of Python objects becomes explicit state passing;
  object identity inside the shared lists is tracked by list index.
* Python's `sorted(..., key=...)` is a stable sort by key; a stable sort
  by key is extensionally unique, and is embedded here as a stable
  insertion sort (`sortByKey`).
-/

namespace GreenMove

/-- `models.py`: class EV. -/
structure EV where
  id : String
  battery : ℤ
  lat : ℚ
  lon : ℚ
  assigned_station : Option String
  deriving DecidableEq, Repr

instance : Inhabited EV := ⟨⟨"", 0, 0, 0, none⟩⟩

/-- `models.py`: class Station (field `occupied` defaults to 0 in Python). -/
structure Station where
  id : String
  lat : ℚ
  lon : ℚ
  capacity : ℤ
  occupied : ℤ
  deriving DecidableEq, Repr

/-- `models.py`: class FleetData. -/
structure FleetData where
  evs : List EV
  stations : List Station
  deriving DecidableEq, Repr

/-- One element of the list returned by `assign_charging`
(the dict `{"ev": ..., "station": ..., "distance_m": ...}`). -/
structure AssignRecord where
  ev : String
  station : String
  distance_m : ℚ
  deriving DecidableEq, Repr

/-- Round-half-to-even to an integer, the rounding mode of Python's
built-in `round`. -/
def roundHalfEven (q : ℚ) : ℤ :=
  if q - ⌊q⌋ < 1/2 then ⌊q⌋
  else if q - ⌊q⌋ > 1/2 then ⌊q⌋ + 1
  else if ⌊q⌋ % 2 = 0 then ⌊q⌋ else ⌊q⌋ + 1

/-- Python's `round(q, 2)`: round to 2 decimal places, half to even. -/
def round2 (q : ℚ) : ℚ := (roundHalfEven (q * 100) : ℚ) / 100

/-- Stable insertion of `a` into a list sorted by `key`: `a` goes in front
of the first element whose key is not strictly smaller, so elements with
an equal key that were inserted earlier stay in front of `a` only when
they occur earlier in the original list (see `sortByKey`). -/
def insertByKey {α β : Type} [LinearOrder β] (key : α → β) (a : α) : List α → List α
  | [] => [a]
  | b :: l => if key b < key a then b :: insertByKey key a l else a :: b :: l

/-- Stable sort by `key`, the embedding of Python's stable
`sorted(..., key=...)`. -/
def sortByKey {α β : Type} [LinearOrder β] (key : α → β) : List α → List α
  | [] => []
  | a :: l => insertByKey key a (sortByKey key l)

/-- Battery of the vehicle at index `i` of the fleet list (used as the
sort key of `sorted(evs, key=lambda e: e.battery)` once vehicles are
tracked by index). -/
def batteryAt (evs : List EV) (i : ℕ) : ℤ := ((evs[i]?).map EV.battery).getD 0

/-- The processing order of `assign_charging`: the vehicle indices
`0, ..., len(evs)-1` stably sorted ascending by battery. -/
def sortIndices (evs : List EV) : List ℕ :=
  sortByKey (batteryAt evs) (List.range evs.length)

/-- The inner station scan of `assign_charging`: walk the station list
(`i` is the list index of the head of the remaining list), keeping the
running best candidate `(index, station, distance)`; a station is a
candidate only when `occupied < capacity`; the best is replaced only on a
strictly smaller distance (`d < best_dist` in the source), so the first
station attaining the minimum wins ties.  `none` as accumulator models
`best_dist = inf, best_station = None`. -/
def scanStations (dist : EV → Station → ℚ) (ev : EV) :
    List Station → ℕ → Option (ℕ × Station × ℚ) → Option (ℕ × Station × ℚ)
  | [], _, best => best
  | s :: rest, i, best =>
    scanStations dist ev rest (i + 1)
      (if s.occupied < s.capacity then
        match best with
        | none => some (i, s, dist ev s)
        | some (j, t, bd) => if dist ev s < bd then some (i, s, dist ev s) else some (j, t, bd)
      else best)

/-- The running state of one `assign_charging` call: the (mutated in
place in Python) vehicle and station lists plus the accumulated
`assignments`. -/
structure AssignState where
  evs : List EV
  stations : List Station
  assignments : List AssignRecord
  deriving DecidableEq, Repr

/-- One iteration of the `for ev in evs_sorted` loop of
`assign_charging`, acting on the vehicle at index `i`: scan the stations;
if a best station was found, set the vehicle's `assigned_station`,
increment that station's `occupied`, and append the assignment record
with the distance rounded to 2 decimals; otherwise leave everything
unchanged. -/
def assignStep (dist : EV → Station → ℚ) (st : AssignState) (i : ℕ) : AssignState :=
  match st.evs[i]? with
  | none => st
  | some ev =>
    match scanStations dist ev st.stations 0 none with
    | none => st
    | some (j, s, d) =>
      { evs := st.evs.set i { ev with assigned_station := some s.id }
        stations := st.stations.set j { s with occupied := s.occupied + 1 }
        assignments := st.assignments ++ [⟨ev.id, s.id, round2 d⟩] }

/-- `optimizer.py`: `assign_charging(evs, stations)`, with the
`real_distance` network calls abstracted into the oracle `dist`.  (The
"reset occupied if not present" loop in the source is a no-op, since the
pydantic model always carries the field.)  Returns the final vehicle
list, station list and assignment records. -/
def assign_charging (dist : EV → Station → ℚ) (evs : List EV) (stations : List Station) :
    AssignState :=
  (sortIndices evs).foldl (assignStep dist) ⟨evs, stations, []⟩

/-- `main.py`: the per-vehicle body of `simulate_ev_movement`, with the
three random draws (`dlat`, `dlon` uniform in [-0.0005, 0.0005] and
`drain = random.randint(0, 2)`) passed as parameters: shift the position,
decrement the battery floored at 0, and if the battery is exactly 0 reset
it to 100 and clear `assigned_station`. -/
def tickEV (ev : EV) (dlat dlon : ℚ) (drain : ℤ) : EV :=
  let ev1 : EV :=
    { ev with lat := ev.lat + dlat, lon := ev.lon + dlon,
              battery := max 0 (ev.battery - drain) }
  if ev1.battery = 0 then { ev1 with battery := 100, assigned_station := none } else ev1

/-- `main.py`: `simulate_ev_movement`, over the whole fleet, with one
random triple per vehicle. -/
def simulate_ev_movement (moves : List (ℚ × ℚ × ℤ)) (evs : List EV) : List EV :=
  List.zipWith (fun ev m => tickEV ev m.1 m.2.1 m.2.2) evs moves

/-- `main.py`: `ConnectionManager.broadcast`, iterating over the snapshot
(first argument, `list(self.active_connections)`) while the live registry
(second argument) is mutated.  `fails c = true` models `send_text`
raising for connection `c`; a failing connection is removed from the
registry (`list.remove`, which deletes the first occurrence and is a
no-op via the swallowed `ValueError` when absent — `List.erase` has
exactly this behaviour).  Returns the registry after the tick and the
list of connections that received the payload, in delivery order. -/
def broadcastAux (fails : String → Bool) : List String → List String → List String × List String
  | [], reg => (reg, [])
  | c :: rest, reg =>
    if fails c then broadcastAux fails rest (reg.erase c)
    else
      let p := broadcastAux fails rest reg
      (p.1, c :: p.2)

/-- `main.py`: one `broadcast` call on registry `conns`: the snapshot is
the registry itself taken at entry. -/
def broadcast (fails : String → Bool) (conns : List String) : List String × List String :=
  broadcastAux fails conns conns

/-- `main.py`: `get_nearby_stations(ev_id)`: find the first vehicle with
the given id (`next(..., None)`); if none, the `{"error": "EV not
found"}` body is returned, modelled as `none`; otherwise return the
vehicle id, its battery, and all stations sorted ascending by distance,
each with its distance rounded to 2 decimals. -/
def get_nearby_stations (dist : EV → Station → ℚ) (fleet : FleetData) (ev_id : String) :
    Option (String × ℤ × List (String × ℚ)) :=
  match fleet.evs.find? (fun e => e.id == ev_id) with
  | none => none
  | some ev =>
    some (ev.id, ev.battery,
      (sortByKey (fun s => dist ev s) fleet.stations).map (fun s => (s.id, round2 (dist ev s))))

/-- `optimizer.py`: the control flow of `real_distance`.  `tier1` is the
outcome of the OSRM request (`some d` = parsed distance, `none` = any
exception: timeout, `raise_for_status`, malformed JSON); `ors_key` is
whether `ORS_API_KEY` is set; `tier2` is the outcome of the ORS request,
consulted only when tier 1 failed and the key is present; otherwise the
flat-earth `fallback` is computed.  The `Bool` component records whether
the tier-2 request was attempted. -/
def real_distance {α : Type} (fallback : EV → Station → α) (tier1 : Option α)
    (ors_key : Bool) (tier2 : Option α) (ev : EV) (st : Station) : α × Bool :=
  match tier1 with
  | some d => (d, false)
  | none =>
    if ors_key then
      match tier2 with
      | some d => (d, true)
      | none => (fallback ev st, true)
    else (fallback ev st, false)

/-- `optimizer.py`: degrees to radians, `math.radians`. -/
noncomputable def radians (x : ℝ) : ℝ := x * Real.pi / 180

/-- `optimizer.py`: the flat-earth fallback of `real_distance`:
`lat_diff_m = (ev.lat - station.lat) * 111320`,
`lon_diff_m = (ev.lon - station.lon) * 111320 * cos(radians(ev.lat))`,
result `sqrt(lat_diff_m**2 + lon_diff_m**2)`. -/
noncomputable def flat_earth_distance (ev : EV) (st : Station) : ℝ :=
  Real.sqrt ((((ev.lat : ℝ) - (st.lat : ℝ)) * 111320) ^ 2 +
    (((ev.lon : ℝ) - (st.lon : ℝ)) * 111320 * Real.cos (radians (ev.lat : ℝ))) ^ 2)

/-- The formula of the spec, stated on raw origin/destination coordinates:
`sqrt((dlat*111320)^2 + (dlon*111320*cos(radians(origin latitude)))^2)`. -/
noncomputable def spec_flat_earth (olat olon dstlat dstlon : ℝ) : ℝ :=
  Real.sqrt (((olat - dstlat) * 111320) ^ 2 +
    ((olon - dstlon) * 111320 * Real.cos (radians olat)) ^ 2)

/-! ### Helper lemmas -/

lemma real_distance_both_fail {α : Type} (fallback : EV → Station → α) (key : Bool)
    (ev : EV) (st : Station) :
    (real_distance fallback none key none ev st).1 = fallback ev st := by
  cases key <;> rfl

lemma tickEV_battery (ev : EV) (dlat dlon : ℚ) (drain : ℤ)
    (h0 : 0 ≤ ev.battery) (h100 : ev.battery ≤ 100) (hd0 : 0 ≤ drain) :
    0 < (tickEV ev dlat dlon drain).battery ∧ (tickEV ev dlat dlon drain).battery ≤ 100 := by
  simp only [tickEV]
  split <;> rename_i h <;> simp only [] <;> omega

lemma simulate_battery (moves : List (ℚ × ℚ × ℤ)) (evs : List EV)
    (hb : ∀ ev ∈ evs, 0 ≤ ev.battery ∧ ev.battery ≤ 100)
    (hm : ∀ m ∈ moves, 0 ≤ m.2.2 ∧ m.2.2 ≤ 2) :
    ∀ ev' ∈ simulate_ev_movement moves evs, 0 < ev'.battery ∧ ev'.battery ≤ 100 := by
  induction evs generalizing moves with
  | nil => intro ev' h; simp [simulate_ev_movement] at h
  | cons e t ih =>
    intro ev' h
    cases moves with
    | nil => simp [simulate_ev_movement] at h
    | cons m mt =>
      simp only [simulate_ev_movement, List.zipWith_cons_cons, List.mem_cons] at h
      rcases h with h | h
      · subst h
        exact tickEV_battery e m.1 m.2.1 m.2.2 (hb e (by simp)).1 (hb e (by simp)).2
          (hm m (by simp)).1
      · exact ih mt (fun x hx => hb x (by simp [hx])) (fun x hx => hm x (by simp [hx])) ev' h

lemma broadcastAux_eq (fails : String → Bool) : ∀ (l reg : List String),
    broadcastAux fails l reg =
      (l.foldl (fun r c => if fails c then r.erase c else r) reg, l.filter (fun c => !fails c))
  | [], reg => by simp [broadcastAux]
  | c :: rest, reg => by
    simp only [broadcastAux, List.foldl_cons, List.filter_cons]
    cases h : fails c with
    | true => simp [h, broadcastAux_eq fails rest (reg.erase c)]
    | false => simp [h, broadcastAux_eq fails rest reg]

lemma regAfter_cons (fails : String → Bool) (c : String) : ∀ (l reg : List String), c ∉ l →
    l.foldl (fun r x => if fails x then r.erase x else r) (c :: reg) =
      c :: l.foldl (fun r x => if fails x then r.erase x else r) reg
  | [], reg, _ => rfl
  | x :: t, reg, h => by
    have hxc : x ≠ c := fun e => h (e ▸ List.mem_cons_self x t)
    have hct : c ∉ t := fun e => h (List.mem_cons_of_mem x e)
    by_cases hf : fails x = true
    · simp only [List.foldl_cons, if_pos hf]
      rw [List.erase_cons_tail (by simp [Ne.symm hxc])]
      exact regAfter_cons fails c t (reg.erase x) hct
    · simp only [List.foldl_cons, if_neg hf]
      exact regAfter_cons fails c t reg hct

lemma regAfter_self (fails : String → Bool) : ∀ (l : List String), l.Nodup →
    l.foldl (fun r x => if fails x then r.erase x else r) l = l.filter (fun c => !fails c)
  | [], _ => rfl
  | c :: t, h => by
    have hct : c ∉ t := (List.nodup_cons.mp h).1
    have ht : t.Nodup := (List.nodup_cons.mp h).2
    by_cases hf : fails c = true
    · simp only [List.foldl_cons, if_pos hf, List.erase_cons_head, List.filter_cons, hf,
        Bool.not_true, reduceIte]
      exact regAfter_self fails t ht
    · have hf' : fails c = false := by simpa using hf
      simp only [List.foldl_cons, List.filter_cons, hf', Bool.false_eq_true, Bool.not_false,
        if_false, reduceIte]
      rw [regAfter_cons fails c t t hct, regAfter_self fails t ht]

/-- Loop invariant of the station scan: what the accumulator of
`scanStations` says about the positions of the full station list strictly
below `i`.  `none` means no station seen so far qualifies; `some (j, s, d)`
means position `j` holds the qualifying station `s` of minimal distance
`d` among positions below `i`, the first such position in case of
distance ties. -/
def ScanInv (dist : EV → Station → ℚ) (ev : EV) (full : List Station) (i : ℕ) :
    Option (ℕ × Station × ℚ) → Prop
  | none => ∀ k t, k < i → full[k]? = some t → ¬ t.occupied < t.capacity
  | some (j, s, d) => j < i ∧ full[j]? = some s ∧ s.occupied < s.capacity ∧ d = dist ev s ∧
      (∀ k t, k < i → full[k]? = some t → t.occupied < t.capacity → d ≤ dist ev t) ∧
      (∀ k t, k < j → full[k]? = some t → t.occupied < t.capacity → d < dist ev t)

lemma scanStations_cons (dist : EV → Station → ℚ) (ev : EV) (s : Station)
    (rest : List Station) (i : ℕ) (best : Option (ℕ × Station × ℚ)) :
    scanStations dist ev (s :: rest) i best = scanStations dist ev rest (i + 1)
      (if s.occupied < s.capacity then
        match best with
        | none => some (i, s, dist ev s)
        | some (j, t, bd) =>
          if dist ev s < bd then some (i, s, dist ev s) else some (j, t, bd)
      else best) := rfl

lemma scan_step (dist : EV → Station → ℚ) (ev : EV) :
    ∀ (l full : List Station) (i : ℕ) (best : Option (ℕ × Station × ℚ)),
      (∀ k, full[i + k]? = l[k]?) → ScanInv dist ev full i best →
      ScanInv dist ev full (i + l.length) (scanStations dist ev l i best)
  | [], full, i, best, _, hinv => by simpa [scanStations] using hinv
  | s :: rest, full, i, best, hsuf, hinv => by
    have hfs : full[i]? = some s := by simpa using hsuf 0
    have hsuf' : ∀ k, full[(i + 1) + k]? = rest[k]? := by
      intro k
      have h := hsuf (k + 1)
      rwa [show i + (k + 1) = (i + 1) + k by omega, List.getElem?_cons_succ] at h
    have hlen : i + (s :: rest).length = (i + 1) + rest.length := by
      simp only [List.length_cons]; omega
    rw [hlen, scanStations_cons]
    refine scan_step dist ev rest full (i + 1) _ hsuf' ?_
    by_cases hq : s.occupied < s.capacity
    · rw [if_pos hq]
      rcases best with _ | ⟨j, t, bd⟩
      · refine ⟨Nat.lt_succ_self i, hfs, hq, rfl, ?_, ?_⟩
        · intro k u hk hku hqu
          rcases Nat.lt_succ_iff_lt_or_eq.mp hk with hk | hk
          · exact absurd hqu (hinv k u hk hku)
          · subst hk; rw [hfs] at hku; cases hku; exact le_refl _
        · intro k u hk hku hqu
          exact absurd hqu (hinv k u hk hku)
      · obtain ⟨hj, hft, hqt, hdt, hmin, hstrict⟩ := hinv
        show ScanInv dist ev full (i + 1)
          (if dist ev s < bd then some (i, s, dist ev s) else some (j, t, bd))
        by_cases hd : dist ev s < bd
        · rw [if_pos hd]
          refine ⟨Nat.lt_succ_self i, hfs, hq, rfl, ?_, ?_⟩
          · intro k u hk hku hqu
            rcases Nat.lt_succ_iff_lt_or_eq.mp hk with hk | hk
            · exact le_of_lt (lt_of_lt_of_le hd (hmin k u hk hku hqu))
            · subst hk; rw [hfs] at hku; cases hku; exact le_refl _
          · intro k u hk hku hqu
            exact lt_of_lt_of_le hd (hmin k u hk hku hqu)
        · rw [if_neg hd]
          refine ⟨Nat.lt_succ_of_lt hj, hft, hqt, hdt, ?_, hstrict⟩
          intro k u hk hku hqu
          rcases Nat.lt_succ_iff_lt_or_eq.mp hk with hk | hk
          · exact hmin k u hk hku hqu
          · subst hk; rw [hfs] at hku; cases hku; exact le_of_not_lt hd
    · rw [if_neg hq]
      rcases best with _ | ⟨j, t, bd⟩
      · intro k u hk hku
        rcases Nat.lt_succ_iff_lt_or_eq.mp hk with hk | hk
        · exact hinv k u hk hku
        · subst hk; rw [hfs] at hku; cases hku; exact hq
      · obtain ⟨hj, hft, hqt, hdt, hmin, hstrict⟩ := hinv
        refine ⟨Nat.lt_succ_of_lt hj, hft, hqt, hdt, ?_, hstrict⟩
        intro k u hk hku hqu
        rcases Nat.lt_succ_iff_lt_or_eq.mp hk with hk | hk
        · exact hmin k u hk hku hqu
        · subst hk; rw [hfs] at hku; cases hku; exact absurd hqu hq

lemma scan_spec (dist : EV → Station → ℚ) (ev : EV) (stations : List Station) :
    ScanInv dist ev stations stations.length (scanStations dist ev stations 0 none) := by
  have h := scan_step dist ev stations stations 0 none (fun k => by simp)
    (fun k t hk => absurd hk (Nat.not_lt_zero k))
  simpa using h

lemma scan_some_spec (dist : EV → Station → ℚ) (ev : EV) (stations : List Station)
    (j : ℕ) (s : Station) (d : ℚ)
    (h : scanStations dist ev stations 0 none = some (j, s, d)) :
    stations[j]? = some s ∧ s.occupied < s.capacity ∧ d = dist ev s ∧
    (∀ (k : ℕ) (t : Station), stations[k]? = some t → t.occupied < t.capacity →
      d ≤ dist ev t) ∧
    (∀ (k : ℕ) (t : Station), k < j → stations[k]? = some t → t.occupied < t.capacity →
      d < dist ev t) := by
  have hs := scan_spec dist ev stations
  rw [h] at hs
  obtain ⟨hj, hfs, hq, hd, hmin, hstrict⟩ := hs
  refine ⟨hfs, hq, hd, ?_, hstrict⟩
  intro k t hkt hqt
  have hk : k < stations.length := by
    rcases List.getElem?_eq_some.mp hkt with ⟨hlt, -⟩
    exact hlt
  exact hmin k t hk hkt hqt

lemma scan_none_iff (dist : EV → Station → ℚ) (ev : EV) (stations : List Station) :
    scanStations dist ev stations 0 none = none ↔
      ∀ s ∈ stations, ¬ s.occupied < s.capacity := by
  constructor
  · intro h s hmem
    have hs := scan_spec dist ev stations
    rw [h] at hs
    obtain ⟨k, hk, hks⟩ := List.getElem_of_mem hmem
    exact hs k s hk (by rw [List.getElem?_eq_getElem hk, hks])
  · intro hall
    cases hres : scanStations dist ev stations 0 none with
    | none => rfl
    | some out =>
      obtain ⟨j, s, d⟩ := out
      obtain ⟨hfs, hq, -⟩ := scan_some_spec dist ev stations j s d hres
      exact absurd hq (hall s (List.getElem?_mem hfs))

lemma insertByKey_perm {α β : Type} [LinearOrder β] (key : α → β) (a : α) :
    ∀ (l : List α), (insertByKey key a l).Perm (a :: l)
  | [] => List.Perm.refl _
  | b :: l => by
    rw [insertByKey]
    by_cases h : key b < key a
    · rw [if_pos h]
      exact ((insertByKey_perm key a l).cons b).trans (List.Perm.swap a b l)
    · rw [if_neg h]

lemma sortByKey_perm {α β : Type} [LinearOrder β] (key : α → β) :
    ∀ (l : List α), (sortByKey key l).Perm l
  | [] => List.Perm.refl _
  | a :: l =>
    (insertByKey_perm key a (sortByKey key l)).trans ((sortByKey_perm key l).cons a)

lemma insertByKey_pairwise {α β : Type} [LinearOrder β] (key : α → β) (R : α → α → Prop)
    (a : α) :
    ∀ (l : List α), l.Pairwise (fun x y => key x < key y ∨ (key x = key y ∧ R x y)) →
      (∀ b ∈ l, R a b) →
      (insertByKey key a l).Pairwise (fun x y => key x < key y ∨ (key x = key y ∧ R x y))
  | [], _, _ => List.pairwise_singleton _ a
  | b :: l, hp, hR => by
    rw [insertByKey]
    rcases List.pairwise_cons.mp hp with ⟨hbl, hpl⟩
    by_cases h : key b < key a
    · rw [if_pos h]
      refine List.pairwise_cons.mpr ⟨?_, insertByKey_pairwise key R a l hpl
        (fun c hc => hR c (List.mem_cons_of_mem b hc))⟩
      intro c hc
      rcases List.mem_cons.mp ((insertByKey_perm key a l).mem_iff.mp hc) with rfl | hcl
      · exact Or.inl h
      · exact hbl c hcl
    · rw [if_neg h]
      refine List.pairwise_cons.mpr ⟨?_, hp⟩
      intro c hc
      have hab : key a ≤ key b := le_of_not_lt h
      rcases List.mem_cons.mp hc with rfl | hcl
      · rcases lt_or_eq_of_le hab with hlt | heq
        · exact Or.inl hlt
        · exact Or.inr ⟨heq, hR c (List.mem_cons_self c l)⟩
      · have hbc : key b ≤ key c := by
          rcases hbl c hcl with h1 | ⟨h1, -⟩
          · exact le_of_lt h1
          · exact le_of_eq h1
        rcases lt_or_eq_of_le (le_trans hab hbc) with hlt | heq
        · exact Or.inl hlt
        · exact Or.inr ⟨heq, hR c (List.mem_cons_of_mem b hcl)⟩

lemma sortByKey_pairwise {α β : Type} [LinearOrder β] (key : α → β) (R : α → α → Prop) :
    ∀ (l : List α), l.Pairwise R →
      (sortByKey key l).Pairwise (fun x y => key x < key y ∨ (key x = key y ∧ R x y))
  | [], _ => List.Pairwise.nil
  | a :: l, hp => by
    rcases List.pairwise_cons.mp hp with ⟨hal, hpl⟩
    exact insertByKey_pairwise key R a (sortByKey key l)
      (sortByKey_pairwise key R l hpl)
      (fun b hb => hal b ((sortByKey_perm key l).mem_iff.mp hb))

lemma sortByKey_sorted {α β : Type} [LinearOrder β] (key : α → β) (l : List α) :
    (sortByKey key l).Pairwise (fun x y => key x ≤ key y) := by
  have htrue : l.Pairwise (fun _ _ => True) := by
    induction l with
    | nil => exact List.Pairwise.nil
    | cons a t ih => exact List.pairwise_cons.mpr ⟨fun _ _ => trivial, ih⟩
  refine (sortByKey_pairwise key (fun _ _ => True) l htrue).imp ?_
  intro x y hxy
  rcases hxy with h | ⟨h, -⟩
  · exact le_of_lt h
  · exact le_of_eq h

/-- Total number of occupied chargers across the station list. -/
def occSum (l : List Station) : ℤ := (l.map Station.occupied).sum

/-- Total capacity across the station list. -/
def capSum (l : List Station) : ℤ := (l.map Station.capacity).sum

/-- Identifier of the vehicle at index `i` of the fleet list. -/
def idAt (evs : List EV) (i : ℕ) : String := ((evs[i]?).map EV.id).getD ""

lemma occSum_set : ∀ (l : List Station) (j : ℕ) (s t : Station), l[j]? = some s →
    occSum (l.set j t) = occSum l - s.occupied + t.occupied
  | [], j, s, t, h => by simp at h
  | s0 :: rest, 0, s, t, h => by
    rw [List.getElem?_cons_zero, Option.some_inj] at h
    subst h
    simp only [List.set_cons_zero, occSum, List.map_cons, List.sum_cons]
    ring
  | s0 :: rest, j + 1, s, t, h => by
    rw [List.getElem?_cons_succ] at h
    have ih := occSum_set rest j s t h
    simp only [occSum, List.set_cons_succ, List.map_cons, List.sum_cons] at ih ⊢
    omega

lemma capSum_set : ∀ (l : List Station) (j : ℕ) (s t : Station), l[j]? = some s →
    capSum (l.set j t) = capSum l - s.capacity + t.capacity
  | [], j, s, t, h => by simp at h
  | s0 :: rest, 0, s, t, h => by
    rw [List.getElem?_cons_zero, Option.some_inj] at h
    subst h
    simp only [List.set_cons_zero, capSum, List.map_cons, List.sum_cons]
    ring
  | s0 :: rest, j + 1, s, t, h => by
    rw [List.getElem?_cons_succ] at h
    have ih := capSum_set rest j s t h
    simp only [capSum, List.set_cons_succ, List.map_cons, List.sum_cons] at ih ⊢
    omega

lemma occSum_le_capSum : ∀ (l : List Station), (∀ s ∈ l, s.occupied ≤ s.capacity) →
    occSum l ≤ capSum l
  | [], _ => le_refl 0
  | s :: rest, h => by
    simp only [occSum, capSum, List.map_cons, List.sum_cons]
    have h1 := h s (List.mem_cons_self s rest)
    have h2 := occSum_le_capSum rest (fun t ht => h t (List.mem_cons_of_mem s ht))
    rw [occSum, capSum] at h2
    omega

lemma occSum_eq_capSum_of_full : ∀ (l : List Station),
    (∀ s ∈ l, s.occupied ≤ s.capacity) → (∀ s ∈ l, ¬ s.occupied < s.capacity) →
    occSum l = capSum l
  | [], _, _ => rfl
  | s :: rest, h1, h2 => by
    simp only [occSum, capSum, List.map_cons, List.sum_cons]
    have ha := h1 s (List.mem_cons_self s rest)
    have hb := h2 s (List.mem_cons_self s rest)
    have ih := occSum_eq_capSum_of_full rest
      (fun t ht => h1 t (List.mem_cons_of_mem s ht))
      (fun t ht => h2 t (List.mem_cons_of_mem s ht))
    rw [occSum, capSum] at ih
    omega

lemma occSum_lt_capSum : ∀ (l : List Station) (j : ℕ) (s : Station),
    (∀ t ∈ l, t.occupied ≤ t.capacity) → l[j]? = some s → s.occupied < s.capacity →
    occSum l < capSum l
  | [], j, s, _, h, _ => by simp at h
  | s0 :: rest, 0, s, hall, h, hq => by
    rw [List.getElem?_cons_zero, Option.some_inj] at h
    subst h
    simp only [occSum, capSum, List.map_cons, List.sum_cons]
    have h2 := occSum_le_capSum rest (fun t ht => hall t (List.mem_cons_of_mem _ ht))
    rw [occSum, capSum] at h2
    omega
  | s0 :: rest, j + 1, s, hall, h, hq => by
    rw [List.getElem?_cons_succ] at h
    simp only [occSum, capSum, List.map_cons, List.sum_cons]
    have h1 := hall s0 (List.mem_cons_self s0 rest)
    have ih := occSum_lt_capSum rest j s (fun t ht => hall t (List.mem_cons_of_mem s0 ht))
      h hq
    rw [occSum, capSum] at ih
    omega

lemma occSum_zero (l : List Station) (h : ∀ s ∈ l, s.occupied = 0) : occSum l = 0 := by
  rw [occSum]
  refine List.sum_eq_zero ?_
  intro x hx
  rw [List.mem_map] at hx
  obtain ⟨s, hs, rfl⟩ := hx
  exact h s hs

lemma map_id_set (evs : List EV) (i : ℕ) (ev ev' : EV) (hev : evs[i]? = some ev)
    (hid : ev'.id = ev.id) : (evs.set i ev').map EV.id = evs.map EV.id := by
  apply List.ext_getElem?
  intro k
  rw [List.getElem?_map, List.getElem?_map, List.getElem?_set]
  by_cases hk : i = k
  · subst hk
    have hlen : i < evs.length := (List.getElem?_eq_some.mp hev).1
    rw [if_pos rfl, if_pos hlen, hev]
    simp [hid]
  · rw [if_neg hk]

lemma idAt_congr (evs₁ evs₂ : List EV) (h : evs₁.map EV.id = evs₂.map EV.id) :
    idAt evs₁ = idAt evs₂ := by
  funext k
  have h1 : (evs₁.map EV.id)[k]? = (evs₂.map EV.id)[k]? := by rw [h]
  rw [List.getElem?_map, List.getElem?_map] at h1
  rw [idAt, idAt, h1]

lemma assignStep_inv (dist : EV → Station → ℚ) (st : AssignState) (i : ℕ)
    (h : ∀ s ∈ st.stations, 0 ≤ s.occupied ∧ s.occupied ≤ s.capacity) :
    ∀ s' ∈ (assignStep dist st i).stations, 0 ≤ s'.occupied ∧ s'.occupied ≤ s'.capacity := by
  intro s' hs'
  rcases hev : st.evs[i]? with _ | ev
  · simp only [assignStep, hev] at hs'
    exact h s' hs'
  · rcases hres : scanStations dist ev st.stations 0 none with _ | ⟨j, s, d⟩
    · simp only [assignStep, hev, hres] at hs'
      exact h s' hs'
    · simp only [assignStep, hev, hres] at hs'
      obtain ⟨hfs, hq, -⟩ := scan_some_spec dist ev st.stations j s d hres
      rcases List.mem_or_eq_of_mem_set hs' with hmem | heq
      · exact h s' hmem
      · subst heq
        have hs0 := (h s (List.getElem?_mem hfs)).1
        exact ⟨by show 0 ≤ s.occupied + 1; omega, by show s.occupied + 1 ≤ s.capacity; omega⟩

lemma assignLoop_inv (dist : EV → Station → ℚ) (idxs : List ℕ) :
    ∀ (st : AssignState), (∀ s ∈ st.stations, 0 ≤ s.occupied ∧ s.occupied ≤ s.capacity) →
      ∀ s' ∈ (idxs.foldl (assignStep dist) st).stations,
        0 ≤ s'.occupied ∧ s'.occupied ≤ s'.capacity := by
  induction idxs with
  | nil => intro st h; simpa using h
  | cons i rest ih =>
    intro st h
    rw [List.foldl_cons]
    exact ih _ (assignStep_inv dist st i h)

lemma assignLoop_spec (dist : EV → Station → ℚ) (idxs : List ℕ) : ∀ (st : AssignState),
    (∀ s ∈ st.stations, 0 ≤ s.occupied ∧ s.occupied ≤ s.capacity) →
    (∀ i ∈ idxs, i < st.evs.length) →
    (idxs.foldl (assignStep dist) st).evs.map EV.id = st.evs.map EV.id ∧
    capSum (idxs.foldl (assignStep dist) st).stations = capSum st.stations ∧
    ((idxs.foldl (assignStep dist) st).assignments.length : ℤ) -
        (st.assignments.length : ℤ) =
      min (idxs.length : ℤ) (capSum st.stations - occSum st.stations) ∧
    occSum (idxs.foldl (assignStep dist) st).stations - occSum st.stations =
      ((idxs.foldl (assignStep dist) st).assignments.length : ℤ) -
        (st.assignments.length : ℤ) ∧
    ∃ sub : List ℕ, sub.Sublist idxs ∧
      (idxs.foldl (assignStep dist) st).assignments.map AssignRecord.ev =
        st.assignments.map AssignRecord.ev ++ sub.map (idAt st.evs) := by
  induction idxs with
  | nil =>
    intro st hinv _
    have hOC := occSum_le_capSum st.stations (fun s hs => (hinv s hs).2)
    refine ⟨rfl, rfl, ?_, ?_, [], List.nil_sublist [], by simp⟩
    · simp only [List.foldl_nil, List.length_nil, Nat.cast_zero]
      omega
    · simp only [List.foldl_nil]
      omega
  | cons i rest ih =>
    intro st hinv hbound
    rw [List.foldl_cons]
    have hibound : i < st.evs.length := hbound i (List.mem_cons_self i rest)
    have hev : st.evs[i]? = some st.evs[i] := List.getElem?_eq_getElem hibound
    rcases hres : scanStations dist (st.evs[i]) st.stations 0 none with _ | ⟨j, s, d⟩
    · have hstep : assignStep dist st i = st := by
        simp only [assignStep, hev, hres]
      rw [hstep]
      have hfull : ∀ t ∈ st.stations, ¬ t.occupied < t.capacity :=
        (scan_none_iff dist (st.evs[i]) st.stations).mp hres
      have hOC : occSum st.stations = capSum st.stations :=
        occSum_eq_capSum_of_full st.stations (fun t ht => (hinv t ht).2) hfull
      obtain ⟨h1, h2, h3, h4, sub, hsub, h5⟩ :=
        ih st hinv (fun k hk => hbound k (List.mem_cons_of_mem i hk))
      refine ⟨h1, h2, ?_, h4, sub, hsub.cons i, h5⟩
      rw [List.length_cons]
      push_cast at h3 ⊢
      omega
    · have hstep : assignStep dist st i =
          ⟨st.evs.set i { st.evs[i] with assigned_station := some s.id },
           st.stations.set j { s with occupied := s.occupied + 1 },
           st.assignments ++ [⟨(st.evs[i]).id, s.id, round2 d⟩]⟩ := by
        simp only [assignStep, hev, hres]
      rw [hstep]
      obtain ⟨hfs, hq, -, -, -⟩ := scan_some_spec dist (st.evs[i]) st.stations j s d hres
      have hinv' := assignStep_inv dist st i hinv
      rw [hstep] at hinv'
      have hids' : (st.evs.set i { st.evs[i] with assigned_station := some s.id }).map EV.id
          = st.evs.map EV.id :=
        map_id_set st.evs i (st.evs[i]) _ hev rfl
      have hcap' : capSum (st.stations.set j { s with occupied := s.occupied + 1 }) =
          capSum st.stations := by
        have h := capSum_set st.stations j s { s with occupied := s.occupied + 1 } hfs
        rw [h]
        show capSum st.stations - s.capacity + s.capacity = capSum st.stations
        omega
      have hocc' : occSum (st.stations.set j { s with occupied := s.occupied + 1 }) =
          occSum st.stations + 1 := by
        have h := occSum_set st.stations j s { s with occupied := s.occupied + 1 } hfs
        rw [h]
        show occSum st.stations - s.occupied + (s.occupied + 1) = occSum st.stations + 1
        omega
      have hlt : occSum st.stations < capSum st.stations :=
        occSum_lt_capSum st.stations j s (fun t ht => (hinv t ht).2) hfs hq
      obtain ⟨h1, h2, h3, h4, sub, hsub, h5⟩ := ih
        ⟨st.evs.set i { st.evs[i] with assigned_station := some s.id },
         st.stations.set j { s with occupied := s.occupied + 1 },
         st.assignments ++ [⟨(st.evs[i]).id, s.id, round2 d⟩]⟩
        hinv'
        (fun k hk => by
          show k < (st.evs.set i _).length
          rw [List.length_set]
          exact hbound k (List.mem_cons_of_mem i hk))
      refine ⟨h1.trans hids', h2.trans hcap', ?_, ?_, i :: sub, hsub.cons₂ i, ?_⟩
      · rw [List.length_cons]
        simp only [List.length_append, List.length_singleton] at h3
        rw [hcap', hocc'] at h3
        push_cast at h3 ⊢
        omega
      · simp only [List.length_append, List.length_singleton] at h3 h4
        rw [hocc'] at h4
        push_cast at h3 h4 ⊢
        omega
      · rw [h5, idAt_congr _ st.evs hids']
        have hidi : idAt st.evs i = (st.evs[i]).id := by
          rw [idAt, hev]
          rfl
        simp only [List.map_append, List.map_cons, List.map_nil, List.append_assoc,
          List.nil_append, hidi]
        rfl

/-! ### Claim theorems -/

/-- Claim C1: if every station starts an assignment run with
`occupied = 0` (and, per the data model, a nonnegative capacity), then
after `assign_charging` returns every station satisfies
`0 ≤ occupied ≤ capacity`: the engine increments `occupied` only when
`occupied < capacity` held at selection time and never decrements it. -/
theorem C1_occupancy_invariant (dist : EV → Station → ℚ) (evs : List EV)
    (stations : List Station)
    (h0 : ∀ s ∈ stations, s.occupied = 0) (hcap : ∀ s ∈ stations, 0 ≤ s.capacity) :
    ∀ s' ∈ (assign_charging dist evs stations).stations,
      0 ≤ s'.occupied ∧ s'.occupied ≤ s'.capacity := by
  refine assignLoop_inv dist (sortIndices evs) ⟨evs, stations, []⟩ ?_
  intro s hs
  exact ⟨by rw [h0 s hs], by rw [h0 s hs]; exact hcap s hs⟩

/-- Witness for C1: one vehicle, one empty station of capacity 2; the
station ends the run with one occupied charger, within bounds. -/
theorem C1_occupancy_invariant_witness :
    0 ≤ (⟨"S", 0, 0, 2, 1⟩ : Station).occupied ∧
      (⟨"S", 0, 0, 2, 1⟩ : Station).occupied ≤ (⟨"S", 0, 0, 2, 1⟩ : Station).capacity :=
  C1_occupancy_invariant (fun _ _ => (5 : ℚ)) [⟨"E", 40, 0, 0, none⟩] [⟨"S", 0, 0, 2, 0⟩]
    (by intro s hs; rw [List.mem_singleton] at hs; subst hs; rfl)
    (by intro s hs; rw [List.mem_singleton] at hs; subst hs; norm_num)
    ⟨"S", 0, 0, 2, 1⟩
    (by norm_num [assign_charging, sortIndices, sortByKey, insertByKey, batteryAt,
      assignStep, scanStations, List.range_succ])

/-- Claim C2: `assign_charging` processes vehicles in ascending order of
battery, ties keeping the original relative order (the processing order
is a permutation of the index range that is pairwise either
strictly-increasing in battery or battery-equal with increasing original
index); in particular with V1 (battery 20), V2 (battery 80) and a single
capacity-1 station closer to V2, V1 is assigned the station and V2
produces no record. -/
theorem C2_low_battery_first (evs : List EV) :
    (sortIndices evs).Perm (List.range evs.length) ∧
    (sortIndices evs).Pairwise
      (fun i j => batteryAt evs i < batteryAt evs j ∨
        (batteryAt evs i = batteryAt evs j ∧ i < j)) ∧
    assign_charging (fun ev _ => (100 : ℚ) - (ev.battery : ℚ))
        [⟨"V1", 20, 0, 0, none⟩, ⟨"V2", 80, 0, 0, none⟩] [⟨"S", 0, 0, 1, 0⟩] =
      ⟨[⟨"V1", 20, 0, 0, some "S"⟩, ⟨"V2", 80, 0, 0, none⟩], [⟨"S", 0, 0, 1, 1⟩],
        [⟨"V1", "S", 80⟩]⟩ := by
  refine ⟨sortByKey_perm (batteryAt evs) (List.range evs.length), ?_, ?_⟩
  · exact sortByKey_pairwise (batteryAt evs) (· < ·) (List.range evs.length)
      (List.pairwise_lt_range evs.length)
  · norm_num [assign_charging, sortIndices, sortByKey, insertByKey, batteryAt, assignStep,
      scanStations, round2, roundHalfEven, List.range_succ]

/-- Claim C8: the nearby-stations query returns the not-found value
exactly when no vehicle in the fleet has the requested identifier;
otherwise it returns the found vehicle's id and battery together with all
stations (a permutation of the fleet's station list) ordered ascending by
distance to that vehicle, each paired with its distance rounded to 2
decimal places. -/
theorem C8_nearby_stations (dist : EV → Station → ℚ) (fleet : FleetData) (ev_id : String) :
    (get_nearby_stations dist fleet ev_id = none ↔ ∀ e ∈ fleet.evs, e.id ≠ ev_id) ∧
    (∀ ev, fleet.evs.find? (fun e => e.id == ev_id) = some ev →
      get_nearby_stations dist fleet ev_id = some (ev.id, ev.battery,
        (sortByKey (fun s => dist ev s) fleet.stations).map
          (fun s => (s.id, round2 (dist ev s)))) ∧
      (sortByKey (fun s => dist ev s) fleet.stations).Perm fleet.stations ∧
      (sortByKey (fun s => dist ev s) fleet.stations).Pairwise
        (fun s t => dist ev s ≤ dist ev t)) := by
  constructor
  · rw [get_nearby_stations]
    cases hfind : fleet.evs.find? (fun e => e.id == ev_id) with
    | none =>
      simp only [true_iff]
      have hall := List.find?_eq_none.mp hfind
      intro e he
      simpa using hall e he
    | some ev =>
      simp only [reduceCtorEq, false_iff, not_forall]
      have hmem := List.mem_of_find?_eq_some hfind
      have hpred := List.find?_some hfind
      exact ⟨ev, hmem, not_not.mpr (by simpa using hpred)⟩
  · intro ev hfind
    refine ⟨?_, sortByKey_perm (fun s => dist ev s) fleet.stations,
      sortByKey_sorted (fun s => dist ev s) fleet.stations⟩
    rw [get_nearby_stations, hfind]

/-- Witness for C8: a fleet with one vehicle, queried by its own id. -/
theorem C8_nearby_stations_witness :
    get_nearby_stations (fun _ s => s.lat) ⟨[⟨"E", 40, 0, 0, none⟩], [⟨"S", 1, 0, 1, 0⟩]⟩
        "E" =
      some ((⟨"E", 40, 0, 0, none⟩ : EV).id, (⟨"E", 40, 0, 0, none⟩ : EV).battery,
        (sortByKey (fun s => (fun (_ : EV) (s : Station) => s.lat) ⟨"E", 40, 0, 0, none⟩ s)
          [⟨"S", 1, 0, 1, 0⟩]).map
            (fun s => (s.id, round2 ((fun (_ : EV) (s : Station) => s.lat)
              ⟨"E", 40, 0, 0, none⟩ s)))) :=
  ((C8_nearby_stations (fun _ s => s.lat) ⟨[⟨"E", 40, 0, 0, none⟩], [⟨"S", 1, 0, 1, 0⟩]⟩
    "E").2 ⟨"E", 40, 0, 0, none⟩ rfl).1

/-- Claim C3: when the scan of a vehicle's turn selects `(j, s, d)`, then
`s` sits at position `j` of the station list, has spare capacity, `d` is
its distance, no available station is strictly closer and every available
station at an earlier position is strictly farther (distance ties are won
by the earlier station); and the engine then sets the vehicle's
`assigned_station` to `s.id`, increments `s.occupied` by one, and appends
the record `(vehicle id, station id, distance rounded to 2 decimals)`. -/
theorem C3_greedy_selection (dist : EV → Station → ℚ) (st : AssignState) (i : ℕ) (ev : EV)
    (j : ℕ) (s : Station) (d : ℚ)
    (hev : st.evs[i]? = some ev)
    (hscan : scanStations dist ev st.stations 0 none = some (j, s, d)) :
    (st.stations[j]? = some s ∧ s.occupied < s.capacity ∧ d = dist ev s ∧
      (∀ (k : ℕ) (t : Station), st.stations[k]? = some t → t.occupied < t.capacity →
        d ≤ dist ev t) ∧
      (∀ (k : ℕ) (t : Station), k < j → st.stations[k]? = some t →
        t.occupied < t.capacity → d < dist ev t)) ∧
    assignStep dist st i =
      { evs := st.evs.set i { ev with assigned_station := some s.id }
        stations := st.stations.set j { s with occupied := s.occupied + 1 }
        assignments := st.assignments ++ [⟨ev.id, s.id, round2 d⟩] } := by
  refine ⟨scan_some_spec dist ev st.stations j s d hscan, ?_⟩
  simp only [assignStep, hev, hscan]

/-- Witness for C3 on a two-station state where the second station is
closer: its position, spare capacity, distance, and the resulting step. -/
theorem C3_greedy_selection_witness :
    ([⟨"A", 0, 0, 9, 0⟩, ⟨"B", 0, 0, 9, 0⟩] : List Station)[1]? =
        some ⟨"B", 0, 0, 9, 0⟩ ∧
    (⟨"B", 0, 0, 9, 0⟩ : Station).occupied < (⟨"B", 0, 0, 9, 0⟩ : Station).capacity ∧
    (2 : ℚ) = (fun (_e : EV) (t : Station) => if t.id = "B" then (2 : ℚ) else 7)
      ⟨"E", 40, 0, 0, none⟩ ⟨"B", 0, 0, 9, 0⟩ ∧
    assignStep (fun (_e : EV) (t : Station) => if t.id = "B" then (2 : ℚ) else 7)
        ⟨[⟨"E", 40, 0, 0, none⟩], [⟨"A", 0, 0, 9, 0⟩, ⟨"B", 0, 0, 9, 0⟩], []⟩ 0 =
      (⟨([⟨"E", 40, 0, 0, none⟩] : List EV).set 0 ⟨"E", 40, 0, 0, some "B"⟩,
        ([⟨"A", 0, 0, 9, 0⟩, ⟨"B", 0, 0, 9, 0⟩] : List Station).set 1 ⟨"B", 0, 0, 9, 1⟩,
        ([] : List AssignRecord) ++ [⟨"E", "B", round2 2⟩]⟩ : AssignState) :=
  let h := C3_greedy_selection (fun (_e : EV) (t : Station) =>
      if t.id = "B" then (2 : ℚ) else 7)
    ⟨[⟨"E", 40, 0, 0, none⟩], [⟨"A", 0, 0, 9, 0⟩, ⟨"B", 0, 0, 9, 0⟩], []⟩ 0
    ⟨"E", 40, 0, 0, none⟩ 1 ⟨"B", 0, 0, 9, 0⟩ 2 rfl
    (by simp only [scanStations, String.reduceEq, reduceIte]; norm_num)
  ⟨h.1.1, h.1.2.1, h.1.2.2.1, h.2⟩

/-- Claim C4: a vehicle at whose turn no station has spare capacity
produces no record and its `assigned_station` is left exactly as it was
(the whole state is unchanged); in particular, with three vehicles and a
single station of capacity 1, exactly one record is produced and the
other two vehicles' `assigned_station` fields are untouched. -/
theorem C4_skip_frame (dist : EV → Station → ℚ) (st : AssignState) (i : ℕ) (ev : EV)
    (hev : st.evs[i]? = some ev)
    (hfull : ∀ s ∈ st.stations, ¬ s.occupied < s.capacity) :
    assignStep dist st i = st ∧
    (assign_charging (fun _ _ => (5 : ℚ))
        [⟨"A", 30, 0, 0, some "Old-A"⟩, ⟨"B", 20, 0, 0, none⟩, ⟨"C", 50, 0, 0, some "Old-C"⟩]
        [⟨"S", 0, 0, 1, 0⟩]).assignments.length = 1 ∧
    (assign_charging (fun _ _ => (5 : ℚ))
        [⟨"A", 30, 0, 0, some "Old-A"⟩, ⟨"B", 20, 0, 0, none⟩, ⟨"C", 50, 0, 0, some "Old-C"⟩]
        [⟨"S", 0, 0, 1, 0⟩]).evs.map EV.assigned_station =
      [some "Old-A", some "S", some "Old-C"] := by
  refine ⟨?_, ?_, ?_⟩
  · simp only [assignStep, hev, (scan_none_iff dist ev st.stations).mpr hfull]
  · norm_num [assign_charging, sortIndices, sortByKey, insertByKey, batteryAt, assignStep,
      scanStations, round2, roundHalfEven, List.range_succ]
  · norm_num [assign_charging, sortIndices, sortByKey, insertByKey, batteryAt, assignStep,
      scanStations, round2, roundHalfEven, List.range_succ]

/-- Witness for C4: one vehicle facing a single full station. -/
theorem C4_skip_frame_witness :
    assignStep (fun _ _ => (5 : ℚ)) ⟨[⟨"E", 40, 0, 0, some "Old"⟩], [⟨"S", 0, 0, 1, 1⟩], []⟩ 0 =
      ⟨[⟨"E", 40, 0, 0, some "Old"⟩], [⟨"S", 0, 0, 1, 1⟩], []⟩ :=
  (C4_skip_frame (fun _ _ => (5 : ℚ)) ⟨[⟨"E", 40, 0, 0, some "Old"⟩], [⟨"S", 0, 0, 1, 1⟩], []⟩
    0 ⟨"E", 40, 0, 0, some "Old"⟩ rfl
    (by intro s hs; rw [List.mem_singleton] at hs; subst hs; norm_num)).1

/-- Claim C5: whenever both remote tiers are unavailable or fail,
`real_distance` returns exactly
`sqrt((dlat*111320)^2 + (dlon*111320*cos(radians(origin latitude)))^2)`
where the deltas are between origin (the vehicle) and destination (the
station) and the origin latitude is the vehicle's latitude; for fixed
coordinates the output is a pure deterministic function of those
coordinates. -/
theorem C5_flat_earth_fallback (key : Bool) (ev : EV) (st : Station) (ev' : EV) (st' : Station)
    (h1 : ev'.lat = ev.lat) (h2 : ev'.lon = ev.lon) (h3 : st'.lat = st.lat)
    (h4 : st'.lon = st.lon) :
    (real_distance flat_earth_distance none key none ev st).1 =
      spec_flat_earth (ev.lat : ℝ) (ev.lon : ℝ) (st.lat : ℝ) (st.lon : ℝ) ∧
    (real_distance flat_earth_distance none key none ev' st').1 =
      (real_distance flat_earth_distance none key none ev st).1 := by
  constructor
  · rw [real_distance_both_fail]; rfl
  · rw [real_distance_both_fail, real_distance_both_fail]
    unfold flat_earth_distance
    rw [h1, h2, h3, h4]

/-- Witness for C5 at concrete coordinates. -/
theorem C5_flat_earth_fallback_witness :
    (real_distance flat_earth_distance none true none
        ⟨"E1", 50, 1, 2, none⟩ ⟨"S1", 3, 4, 5, 0⟩).1 =
      spec_flat_earth (((1 : ℚ) : ℝ)) (((2 : ℚ) : ℝ)) (((3 : ℚ) : ℝ)) (((4 : ℚ) : ℝ)) ∧
    (real_distance flat_earth_distance none true none
        ⟨"E2", 10, 1, 2, some "X"⟩ ⟨"S2", 3, 4, 7, 1⟩).1 =
      (real_distance flat_earth_distance none true none
        ⟨"E1", 50, 1, 2, none⟩ ⟨"S1", 3, 4, 5, 0⟩).1 :=
  C5_flat_earth_fallback true ⟨"E1", 50, 1, 2, none⟩ ⟨"S1", 3, 4, 5, 0⟩
    ⟨"E2", 10, 1, 2, some "X"⟩ ⟨"S2", 3, 4, 7, 1⟩ rfl rfl rfl rfl

/-- Claim C6: `real_distance` is total for every combination of tier
outcomes; tier-1 errors are swallowed, tier 2 is attempted exactly when
tier 1 failed and the secondary-provider credential is configured (its
absence is not an error), and the flat-earth fallback is reached exactly
when both remote tiers fail or tier 2 is unavailable. -/
theorem C6_tier_chain {α : Type} (fallback : EV → Station → α) (tier1 : Option α)
    (ors_key : Bool) (tier2 : Option α) (ev : EV) (st : Station) :
    ((real_distance fallback tier1 ors_key tier2 ev st).2 = true ↔
      tier1 = none ∧ ors_key = true) ∧
    (∀ d, tier1 = some d → real_distance fallback tier1 ors_key tier2 ev st = (d, false)) ∧
    (∀ d, tier1 = none → ors_key = true → tier2 = some d →
      real_distance fallback tier1 ors_key tier2 ev st = (d, true)) ∧
    (tier1 = none → (ors_key = false ∨ tier2 = none) →
      (real_distance fallback tier1 ors_key tier2 ev st).1 = fallback ev st) := by
  rcases tier1 with _ | d1 <;> rcases tier2 with _ | d2 <;> cases ors_key <;>
    simp [real_distance]

/-- Witness for C6: each tier outcome exercised at a concrete input. -/
theorem C6_tier_chain_witness :
    real_distance (fun _ _ => (3 : ℚ)) (some 5) false none ⟨"E", 50, 0, 0, none⟩
        ⟨"S", 0, 0, 1, 0⟩ = (5, false) ∧
    real_distance (fun _ _ => (3 : ℚ)) none true (some 7) ⟨"E", 50, 0, 0, none⟩
        ⟨"S", 0, 0, 1, 0⟩ = (7, true) ∧
    (real_distance (fun _ _ => (3 : ℚ)) none false (some 7) ⟨"E", 50, 0, 0, none⟩
        ⟨"S", 0, 0, 1, 0⟩).1 = (fun (_ : EV) (_ : Station) => (3 : ℚ)) ⟨"E", 50, 0, 0, none⟩
        ⟨"S", 0, 0, 1, 0⟩ :=
  ⟨(C6_tier_chain (fun _ _ => (3 : ℚ)) (some 5) false none _ _).2.1 5 rfl,
   (C6_tier_chain (fun _ _ => (3 : ℚ)) none true (some 7) _ _).2.2.1 7 rfl rfl rfl,
   (C6_tier_chain (fun _ _ => (3 : ℚ)) none false (some 7) _ _).2.2.2 rfl (Or.inl rfl)⟩

/-- Claim C7: per simulator tick, assuming `0 ≤ battery ≤ 100` before the
tick and a drain drawn from `[0, 2]`: the battery is floored at 0, a
battery that is exactly 0 after the decrement becomes 100 with
`assigned_station` cleared within the same tick, otherwise battery and
`assigned_station` are the decremented value and the old reference; hence
after every tick `0 < battery ≤ 100`. -/
theorem C7_battery_tick (moves : List (ℚ × ℚ × ℤ)) (evs : List EV)
    (hb : ∀ ev ∈ evs, 0 ≤ ev.battery ∧ ev.battery ≤ 100)
    (hm : ∀ m ∈ moves, 0 ≤ m.2.2 ∧ m.2.2 ≤ 2) :
    (∀ ev' ∈ simulate_ev_movement moves evs, 0 < ev'.battery ∧ ev'.battery ≤ 100) ∧
    (∀ (ev : EV) (dlat dlon : ℚ) (drain : ℤ), max 0 (ev.battery - drain) = 0 →
      (tickEV ev dlat dlon drain).battery = 100 ∧
      (tickEV ev dlat dlon drain).assigned_station = none) ∧
    (∀ (ev : EV) (dlat dlon : ℚ) (drain : ℤ), max 0 (ev.battery - drain) ≠ 0 →
      (tickEV ev dlat dlon drain).battery = max 0 (ev.battery - drain) ∧
      (tickEV ev dlat dlon drain).assigned_station = ev.assigned_station) := by
  refine ⟨simulate_battery moves evs hb hm, ?_, ?_⟩
  · intro ev dlat dlon drain h
    simp [tickEV, h]
  · intro ev dlat dlon drain h
    simp [tickEV, h]

/-- Witness for C7: a vehicle at battery 1 drained by 2 hits 0 and resets
to 100 with its assigned station cleared, within the same tick. -/
theorem C7_battery_tick_witness :
    (tickEV ⟨"E", 1, 0, 0, some "S"⟩ 0 0 2).battery = 100 ∧
    (tickEV ⟨"E", 1, 0, 0, some "S"⟩ 0 0 2).assigned_station = none :=
  (C7_battery_tick [(0, 0, 2)] [⟨"E", 1, 0, 0, some "S"⟩]
    (by intro ev h; rw [List.mem_singleton] at h; subst h; exact ⟨by norm_num, by norm_num⟩)
    (by intro m h; rw [List.mem_singleton] at h; subst h;
        exact ⟨by norm_num, by norm_num⟩)).2.1
    ⟨"E", 1, 0, 0, some "S"⟩ 0 0 2 (by show max 0 (1 - 2) = (0 : ℤ); omega)

/-- Claim C9: a delivery failure to one observer neither prevents nor
aborts delivery to the remaining observers; after the tick the registry
is exactly the observers whose delivery succeeded (failing observers
removed, succeeding ones kept), and the delivered set is every
non-failing observer; in particular with observers A, B, C where B's
delivery fails, A and C still receive the payload and B is removed. -/
theorem C9_broadcast_resilience (fails : String → Bool) (conns : List String)
    (h : conns.Nodup) :
    (broadcast fails conns).1 = conns.filter (fun c => !fails c) ∧
    (broadcast fails conns).2 = conns.filter (fun c => !fails c) ∧
    (∀ c ∈ conns, fails c = true → c ∉ (broadcast fails conns).1) ∧
    (∀ c ∈ conns, fails c = false →
      c ∈ (broadcast fails conns).1 ∧ c ∈ (broadcast fails conns).2) ∧
    broadcast (fun c => c == "B") ["A", "B", "C"] = (["A", "C"], ["A", "C"]) := by
  have key : broadcast fails conns = (conns.filter (fun c => !fails c),
      conns.filter (fun c => !fails c)) := by
    rw [broadcast, broadcastAux_eq, regAfter_self fails conns h]
  refine ⟨by rw [key], by rw [key], ?_, ?_, by decide⟩
  · intro c hc hf
    rw [key]
    simp [List.mem_filter, hf]
  · intro c hc hf
    rw [key]
    simp [List.mem_filter, hf, hc]

/-- Claim C10: with positive capacities, `occupied = 0` on entry, and
(per the data model) pairwise-distinct vehicle identifiers, the number of
records returned by `assign_charging` is exactly
`min(number of vehicles, total capacity)`, each vehicle identifier
appears in at most one record, and the total occupied count after the run
equals the number of records. -/
theorem C10_record_count (dist : EV → Station → ℚ) (evs : List EV) (stations : List Station)
    (hocc : ∀ s ∈ stations, s.occupied = 0)
    (hcap : ∀ s ∈ stations, 0 < s.capacity)
    (hids : (evs.map EV.id).Nodup) :
    ((assign_charging dist evs stations).assignments.length : ℤ) =
      min (evs.length : ℤ) (capSum stations) ∧
    ((assign_charging dist evs stations).assignments.map AssignRecord.ev).Nodup ∧
    occSum (assign_charging dist evs stations).stations =
      ((assign_charging dist evs stations).assignments.length : ℤ) := by
  have hinv : ∀ s ∈ stations, 0 ≤ s.occupied ∧ s.occupied ≤ s.capacity := by
    intro s hs
    have h0 := hocc s hs
    have hc := hcap s hs
    exact ⟨by omega, by omega⟩
  have hperm : (sortIndices evs).Perm (List.range evs.length) :=
    sortByKey_perm (batteryAt evs) (List.range evs.length)
  have hbound : ∀ i ∈ sortIndices evs, i < evs.length := by
    intro i hi
    exact List.mem_range.mp (hperm.mem_iff.mp hi)
  have hO0 : occSum stations = 0 := occSum_zero stations hocc
  obtain ⟨h1, h2, h3, h4, sub, hsub, h5⟩ :=
    assignLoop_spec dist (sortIndices evs) ⟨evs, stations, []⟩ hinv hbound
  have hlen : (sortIndices evs).length = evs.length :=
    hperm.length_eq.trans (List.length_range _)
  have hA : assign_charging dist evs stations =
      (sortIndices evs).foldl (assignStep dist) ⟨evs, stations, []⟩ := rfl
  refine ⟨?_, ?_, ?_⟩
  · rw [hA]
    simp only [List.length_nil, Nat.cast_zero, sub_zero] at h3
    rw [h3, hlen, hO0, sub_zero]
  · rw [hA]
    have h5' : ((sortIndices evs).foldl (assignStep dist)
        ⟨evs, stations, []⟩).assignments.map AssignRecord.ev = sub.map (idAt evs) := by
      rw [h5]
      simp
    rw [h5']
    have hsortnodup : (sortIndices evs).Nodup :=
      hperm.nodup_iff.mpr (List.nodup_range _)
    refine List.Nodup.map_on ?_ (hsub.nodup hsortnodup)
    intro x hx y hy hxy
    have hxb : x < evs.length := hbound x (hsub.subset hx)
    have hyb : y < evs.length := hbound y (hsub.subset hy)
    have ex : (evs.map EV.id)[x]? = some (idAt evs x) := by
      rw [List.getElem?_map, idAt, List.getElem?_eq_getElem hxb]
      rfl
    have ey : (evs.map EV.id)[y]? = some (idAt evs y) := by
      rw [List.getElem?_map, idAt, List.getElem?_eq_getElem hyb]
      rfl
    refine List.getElem?_inj (by rwa [List.length_map]) hids ?_
    rw [ex, ey, hxy]
  · rw [hA]
    simp only [List.length_nil, Nat.cast_zero, sub_zero] at h3 h4
    rw [hO0, sub_zero] at h4
    exact h4

/-- Witness for C10: two vehicles, one station of capacity 1: one record,
distinct record ids, occupied total 1. -/
theorem C10_record_count_witness :
    ((assign_charging (fun _ _ => (5 : ℚ))
        [⟨"A", 30, 0, 0, none⟩, ⟨"B", 20, 0, 0, none⟩]
        [⟨"S", 0, 0, 1, 0⟩]).assignments.length : ℤ) =
      min (([⟨"A", 30, 0, 0, none⟩, ⟨"B", 20, 0, 0, none⟩] : List EV).length : ℤ)
        (capSum [⟨"S", 0, 0, 1, 0⟩]) ∧
    ((assign_charging (fun _ _ => (5 : ℚ))
        [⟨"A", 30, 0, 0, none⟩, ⟨"B", 20, 0, 0, none⟩]
        [⟨"S", 0, 0, 1, 0⟩]).assignments.map AssignRecord.ev).Nodup ∧
    occSum (assign_charging (fun _ _ => (5 : ℚ))
        [⟨"A", 30, 0, 0, none⟩, ⟨"B", 20, 0, 0, none⟩]
        [⟨"S", 0, 0, 1, 0⟩]).stations =
      ((assign_charging (fun _ _ => (5 : ℚ))
        [⟨"A", 30, 0, 0, none⟩, ⟨"B", 20, 0, 0, none⟩]
        [⟨"S", 0, 0, 1, 0⟩]).assignments.length : ℤ) :=
  C10_record_count (fun _ _ => (5 : ℚ))
    [⟨"A", 30, 0, 0, none⟩, ⟨"B", 20, 0, 0, none⟩] [⟨"S", 0, 0, 1, 0⟩]
    (by intro s hs; rw [List.mem_singleton] at hs; subst hs; rfl)
    (by intro s hs; rw [List.mem_singleton] at hs; subst hs; norm_num)
    (by simp)

/-- Witness for C9 on the three-observer registry with B failing. -/
theorem C9_broadcast_resilience_witness :
    (broadcast (fun c => c == "B") ["A", "B", "C"]).1 =
      (["A", "B", "C"].filter (fun c => !(c == "B"))) :=
  (C9_broadcast_resilience (fun c => c == "B") ["A", "B", "C"] (by decide)).1

end GreenMove
